import Mathlib

/-!
Verification of the aligo CLI path-resolution, folder-materialization and
sync components against their natural-language specification.

The embedding follows `src/aligo/cli.py` for the functions present there
(`_normalize_remote_path`, `_resolve_remote_file`, `_resolve_remote_folder`,
`main`), and models from the spec the repository code that is exercised by
`tests/test_cli_sync_resolution.py` but whose definition is not part of the
provided sources (`_resolve_sync_remote_folder`, the tree differ and the
sync reconciler inside `Aligo.sync_folder`).
-/

namespace Aligo

/-- One entry of the remote tree: `file_id`, `name` and `type`
(`"file"` or `"folder"`), as carried by the node objects the CLI receives. -/
structure Node where
  file_id : String
  name : String
  type : String
deriving Repr, DecidableEq

/-- Errors raised by the CLI helpers in `cli.py`:
`ValueError` from `_normalize_remote_path`, `FileNotFoundError` and
`NotADirectoryError` from the resolvers. -/
inductive CliError where
  | valueError (msg : String)
  | fileNotFound (msg : String)
  | notADirectory (msg : String)
deriving Repr, DecidableEq

/-- Python's `str.strip()` on the character list of a string: drop
whitespace from both ends. -/
def pyStrip (l : List Char) : List Char :=
  ((l.dropWhile Char.isWhitespace).reverse.dropWhile Char.isWhitespace).reverse

/-- Python's `needle in hay` substring test, on character lists. -/
def hasInfix (n : List Char) : List Char → Bool
  | [] => n.isEmpty
  | c :: t => n.isPrefixOf (c :: t) || hasInfix n t

/-- `(path or "/").strip()`: the whitespace-stripped value examined by
`_normalize_remote_path`, with the empty string replaced by `"/"`. -/
def strippedValue (path : String) : List Char :=
  pyStrip (if path.data.isEmpty then ['/'] else path.data)

/-- Embedding of `_normalize_remote_path` (cli.py lines 22-30):
`value = (path or "/").strip()`; reject `"://"` anywhere; reject `":"`
when the stripped value does not start with `"/"`; otherwise prepend
`"/"` when missing and return. -/
def normalizeRemotePath (path : String) : Except CliError String :=
  if hasInfix "://".data (strippedValue path) then
    .error (.valueError ("unsupported remote path format: " ++ String.mk (strippedValue path)))
  else if (strippedValue path).contains ':' && !(['/'].isPrefixOf (strippedValue path)) then
    .error (.valueError ("unsupported remote path format: " ++ String.mk (strippedValue path)))
  else if ['/'].isPrefixOf (strippedValue path) then
    .ok (String.mk (strippedValue path))
  else
    .ok (String.mk ('/' :: strippedValue path))

/-- Failure kinds of path resolution, modelled as tagged values per the
spec's error taxonomy (§7): `Ambiguous` carries the segment and every
candidate name found at that level, `NotFound` the full requested path,
`NameConflict` the name refused on creation. -/
inductive ResolveError where
  | ambiguous (segment : String) (candidates : List String)
  | notFound (path : String)
  | nameConflict (name : String)
deriving Repr, DecidableEq

/-- Render a comma-separated list of candidate names. -/
def renderNames : List String → String
  | [] => ""
  | [n] => n
  | n :: rest => n ++ ", " ++ renderNames rest

/-- The error text surfaced for each resolution failure; for the ambiguous
case it enumerates every candidate name found at the failing level (§7). -/
def errorMessage : ResolveError → String
  | .ambiguous seg names =>
      "ambiguous remote folder name for " ++ seg ++ ": " ++ renderNames names
  | .notFound p => "remote path not found: " ++ p
  | .nameConflict n => "already exists: " ++ n

/-- `\(\d+\)`: an opening parenthesis, one or more digits, a closing
parenthesis, and nothing after. -/
def parenDigits (l : List Char) : Bool :=
  match l with
  | '(' :: t =>
    match t.getLast? with
    | some ')' => !t.dropLast.isEmpty && t.dropLast.all Char.isDigit
    | _ => false
  | _ => false

/-- Auto-rename suffix detection (spec §9): `name` matches
`^<escaped-base>\(\d+\)$` relative to the expected segment `seg`. -/
def isAutoRenamed (seg name : String) : Bool :=
  seg.data.isPrefixOf name.data && parenDigits (name.data.drop seg.data.length)

/-- The remote store state as seen through the collaborator interface
(§6): a children table keyed by parent `file_id` (dictionary semantics),
the log of `create_folder` calls as `(parent_file_id, name,
check_name_mode)` triples, and a counter for fresh ids. -/
structure RemoteState where
  children : List (String × List Node)
  created : List (String × String × String)
  seq : Nat
deriving Repr, DecidableEq

/-- Dictionary lookup of a parent's children; an absent key reads as the
empty list. -/
def lookupChildren : List (String × List Node) → String → List Node
  | [], _ => []
  | e :: t, k => if e.1 = k then e.2 else lookupChildren t k

/-- Dictionary update: replace the first entry with the given key, or
append a new entry when the key is absent. -/
def setChildren : List (String × List Node) → String → List Node → List (String × List Node)
  | [], k, v => [(k, v)]
  | e :: t, k, v => if e.1 = k then (k, v) :: t else e :: setChildren t k v

/-- Whether the children table has an entry for the given key. -/
def hasKey : List (String × List Node) → String → Bool
  | [], _ => false
  | e :: t, k => e.1 = k || hasKey t k

/-- `list_children` restricted to folders (spec §4.1 step 1): the children
of `parentId` whose `type` is `"folder"`. -/
def folderChildren (s : RemoteState) (parentId : String) : List Node :=
  (lookupChildren s.children parentId).filter (fun n => n.type = "folder")

/-- The children table after appending `node` under `parentId` and
registering an empty child list for the fresh id `fid` when absent
(dictionary `setdefault` semantics). -/
def childrenAfterCreate (m : List (String × List Node)) (parentId fid : String)
    (node : Node) : List (String × List Node) :=
  if hasKey (setChildren m parentId (lookupChildren m parentId ++ [node])) fid then
    setChildren m parentId (lookupChildren m parentId ++ [node])
  else
    setChildren m parentId (lookupChildren m parentId ++ [node]) ++ [(fid, [])]

/-- Modelled from the spec: `create_folder(parent_id, name,
conflict_policy)` (§6) of the remote collaborator, which is not part of
the provided sources. Under the `refuse` policy a name collision with any
existing child is refused (§4.2); otherwise a node with a fresh id is
appended under the parent, an empty child list is registered for it, and
the call is logged. -/
def createFolder (s : RemoteState) (parentId name mode : String) :
    Except ResolveError (Node × RemoteState) :=
  if mode = "refuse" && (lookupChildren s.children parentId).any (fun n => n.name = name) then
    .error (.nameConflict name)
  else
    .ok (⟨"id-" ++ toString (s.seq + 1), name, "folder"⟩,
      ⟨childrenAfterCreate s.children parentId ("id-" ++ toString (s.seq + 1))
         ⟨"id-" ++ toString (s.seq + 1), name, "folder"⟩,
       s.created ++ [(parentId, name, mode)], s.seq + 1⟩)

/-- Modelled from the spec: the per-segment walk shared by the Path
Resolver (§4.1) and the Folder Materializer (§4.2), implemented by the
repository's `_resolve_sync_remote_folder` which is not part of the
provided sources. At each segment the folder children of the current node
are partitioned into exact matches and auto-renamed siblings; exactly one
exact match descends; zero exact matches with siblings present is
ambiguous; more than one exact match is ambiguous; zero candidates
creates the folder with the `refuse` conflict policy and descends. -/
def resolveSegments (s : RemoteState) (cur : Node) :
    List String → Except ResolveError (Node × RemoteState)
  | [] => .ok (cur, s)
  | seg :: rest =>
    let kids := folderChildren s cur.file_id
    let exact := kids.filter (fun n => n.name = seg)
    let sibs := kids.filter (fun n => isAutoRenamed seg n.name)
    match exact with
    | [e] => resolveSegments s e rest
    | [] =>
      if sibs.isEmpty then
        match createFolder s cur.file_id seg "refuse" with
        | .ok (node, s') => resolveSegments s' node rest
        | .error err => .error err
      else .error (.ambiguous seg (sibs.map Node.name))
    | _ => .error (.ambiguous seg (exact.map Node.name))

/-- The root node, as returned by `get_file("root")`. -/
def rootNode : Node := ⟨"root", "/", "folder"⟩

/-- Split a character list on `'/'`, accumulating the current segment in
reverse. -/
def splitSlash (cur : List Char) : List Char → List String
  | [] => [String.mk cur.reverse]
  | c :: t => if c = '/' then String.mk cur.reverse :: splitSlash [] t
              else splitSlash (c :: cur) t

/-- The non-empty segments of a filepath-like string (spec §3 Path). -/
def pathSegments (p : String) : List String :=
  (splitSlash [] p.data).filter (fun s => !s.isEmpty)

/-- Modelled from the spec: `_resolve_sync_remote_folder`, the folder
materializer used by the `sync` command (§4.2), which is exercised by
`tests/test_cli_sync_resolution.py` but whose definition is not part of
the provided sources. An empty segment list resolves to the root; any
other path walks the segments from the root. -/
def resolveSyncRemoteFolder (s : RemoteState) (path : String) :
    Except ResolveError (Node × RemoteState) :=
  match pathSegments path with
  | [] => .ok (rootNode, s)
  | segs => resolveSegments s rootNode segs

/-- The empty remote store: a bare root with no children and no creation
log, as in `FakeAli()` of the resolution tests. -/
def emptyRootState : RemoteState := ⟨[("root", [])], [], 0⟩

/-- The store holding the exact folder `vocabulary` and the auto-renamed
sibling `vocabulary(1)` under root (test `test_reuses_exact_existing_folder`). -/
def vocabTestState : RemoteState :=
  ⟨[("root", [⟨"folder-vocabulary", "vocabulary", "folder"⟩,
              ⟨"folder-vocabulary-1", "vocabulary(1)", "folder"⟩]),
    ("folder-vocabulary", []), ("folder-vocabulary-1", [])], [], 0⟩

/-- The store holding only the auto-renamed siblings `vocabulary(1)` and
`vocabulary(2)` under root (test `test_fails_when_only_auto_renamed_siblings_exist`). -/
def ambigTestState : RemoteState :=
  ⟨[("root", [⟨"id-1", "vocabulary(1)", "folder"⟩, ⟨"id-2", "vocabulary(2)", "folder"⟩]),
    ("id-1", []), ("id-2", [])], [], 2⟩

/-- The store produced by materializing `/backup/vocabulary` against the
empty root. -/
def materializedState : RemoteState :=
  ⟨[("root", [⟨"id-1", "backup", "folder"⟩]),
    ("id-1", [⟨"id-2", "vocabulary", "folder"⟩]),
    ("id-2", [])],
   [("root", "backup", "refuse"), ("id-1", "vocabulary", "refuse")], 2⟩

/-! ### The record representation of nodes (spec §9, polymorphic node
representation) -/

/-- A plain key/value record node, as handed back by the collaborator in
dict mode: an association list of string-valued fields holding at least
`file_id`, `name` and `type`. -/
def RecNode : Type := List (String × String)

/-- Field access on a record node; an absent key reads as the empty
string. -/
def recField (r : RecNode) (k : String) : String :=
  match r.find? (fun e => e.1 = k) with
  | some e => e.2
  | none => ""

/-- The record carrying the same `file_id`/`name`/`type` as a rich node. -/
def toRecord (n : Node) : RecNode :=
  [("file_id", n.file_id), ("name", n.name), ("type", n.type)]

/-- The remote store state when the collaborator returns record nodes. -/
structure RecState where
  children : List (String × List RecNode)
  created : List (String × String × String)
  seq : Nat

/-- The record-mode image of a rich store: every node is replaced by its
record. -/
def mapState (s : RemoteState) : RecState :=
  ⟨s.children.map (fun e => (e.1, e.2.map toRecord)), s.created, s.seq⟩

def lookupChildrenRec : List (String × List RecNode) → String → List RecNode
  | [], _ => []
  | e :: t, k => if e.1 = k then e.2 else lookupChildrenRec t k

def setChildrenRec :
    List (String × List RecNode) → String → List RecNode → List (String × List RecNode)
  | [], k, v => [(k, v)]
  | e :: t, k, v => if e.1 = k then (k, v) :: t else e :: setChildrenRec t k v

def hasKeyRec : List (String × List RecNode) → String → Bool
  | [], _ => false
  | e :: t, k => e.1 = k || hasKeyRec t k

def folderChildrenRec (s : RecState) (parentId : String) : List RecNode :=
  (lookupChildrenRec s.children parentId).filter (fun n => recField n "type" = "folder")

/-- The record-mode children table after a creation. -/
def childrenAfterCreateRec (m : List (String × List RecNode)) (parentId fid : String)
    (node : RecNode) : List (String × List RecNode) :=
  if hasKeyRec (setChildrenRec m parentId (lookupChildrenRec m parentId ++ [node])) fid then
    setChildrenRec m parentId (lookupChildrenRec m parentId ++ [node])
  else
    setChildrenRec m parentId (lookupChildrenRec m parentId ++ [node]) ++ [(fid, [])]

/-- `create_folder` against the record-mode collaborator. -/
def createFolderRec (s : RecState) (parentId name mode : String) :
    Except ResolveError (RecNode × RecState) :=
  if mode = "refuse" && (lookupChildrenRec s.children parentId).any
      (fun n => recField n "name" = name) then
    .error (.nameConflict name)
  else
    .ok (toRecord ⟨"id-" ++ toString (s.seq + 1), name, "folder"⟩,
      ⟨childrenAfterCreateRec s.children parentId ("id-" ++ toString (s.seq + 1))
         (toRecord ⟨"id-" ++ toString (s.seq + 1), name, "folder"⟩),
       s.created ++ [(parentId, name, mode)], s.seq + 1⟩)

/-- The per-segment walk of the resolver when every node is accessed
through the record accessors — the same algorithm as `resolveSegments`,
reading `file_id`/`name`/`type` via `recField`. -/
def resolveSegmentsRec (s : RecState) (cur : RecNode) :
    List String → Except ResolveError (RecNode × RecState)
  | [] => .ok (cur, s)
  | seg :: rest =>
    let kids := folderChildrenRec s (recField cur "file_id")
    let exact := kids.filter (fun n => recField n "name" = seg)
    let sibs := kids.filter (fun n => isAutoRenamed seg (recField n "name"))
    match exact with
    | [e] => resolveSegmentsRec s e rest
    | [] =>
      if sibs.isEmpty then
        match createFolderRec s (recField cur "file_id") seg "refuse" with
        | .ok (node, s') => resolveSegmentsRec s' node rest
        | .error err => .error err
      else .error (.ambiguous seg (sibs.map (fun n => recField n "name")))
    | _ => .error (.ambiguous seg (exact.map (fun n => recField n "name")))

/-- `_resolve_sync_remote_folder` over record nodes. -/
def resolveSyncRemoteFolderRec (s : RecState) (path : String) :
    Except ResolveError (RecNode × RecState) :=
  match pathSegments path with
  | [] => .ok (toRecord rootNode, s)
  | segs => resolveSegmentsRec s (toRecord rootNode) segs

/-- Transport of a rich-mode resolution result into record mode. -/
def mapResult (r : Except ResolveError (Node × RemoteState)) :
    Except ResolveError (RecNode × RecState) :=
  match r with
  | .ok (n, s) => .ok (toRecord n, mapState s)
  | .error e => .error e

/-! ### The CLI resolvers over the opaque collaborator -/

/-- The collaborator as `_resolve_remote_file` and `_resolve_remote_folder`
(cli.py) see it: `get_file("root")` yields `rootNode`;
`get_file_by_path` and `get_folder_by_path` are opaque lookups whose
implementation is not part of the provided sources. `folderByPath` takes
the normalized path and the `create_folder` flag. -/
structure CliClient where
  rootNode : Node
  fileByPath : String → Option Node
  folderByPath : String → Bool → Option Node

/-- Embedding of `_resolve_remote_file` (cli.py lines 55-65): normalize;
`/` resolves to the root; otherwise try the file lookup first and fall
back to the folder lookup; raise `FileNotFoundError` naming the path when
both miss. -/
def resolveRemoteFile (ali : CliClient) (remotePath : String) : Except CliError Node :=
  match normalizeRemotePath remotePath with
  | .error e => .error e
  | .ok path =>
    if path = "/" then .ok ali.rootNode
    else
      match ali.fileByPath path with
      | some f => .ok f
      | none =>
        match ali.folderByPath path false with
        | some f => .ok f
        | none => .error (.fileNotFound ("remote path not found: " ++ path))

/-- Embedding of `_resolve_remote_folder` (cli.py lines 68-77): normalize;
`/` resolves to the root; a missing folder raises `FileNotFoundError`; a
node that is not a folder raises `NotADirectoryError`. -/
def resolveRemoteFolder (ali : CliClient) (remotePath : String) (create : Bool) :
    Except CliError Node :=
  match normalizeRemotePath remotePath with
  | .error e => .error e
  | .ok path =>
    if path = "/" then .ok ali.rootNode
    else
      match ali.folderByPath path create with
      | none => .error (.fileNotFound ("remote folder not found: " ++ path))
      | some folder =>
        if folder.type ≠ "folder" then
          .error (.notADirectory ("remote path is not folder: " ++ path))
        else .ok folder

/-- A concrete collaborator for witnesses: the root folder, no file
lookups, and a single non-folder node reachable at `/file`. -/
def fileOnlyClient : CliClient :=
  ⟨⟨"root", "/", "folder"⟩, fun _ => none,
   fun p _ => if p = "/file" then some ⟨"f1", "file", "file"⟩ else none⟩

/-- A concrete collaborator for witnesses: nothing resolves below root. -/
def emptyClient : CliClient :=
  ⟨⟨"root", "/", "folder"⟩, fun _ => none, fun _ _ => none⟩

/-! ### The `main` dispatcher -/

/-- Outcome of running the selected command handler inside `main`
(cli.py lines 394-409): it finishes with a return code (every `_cmd_*`
handler returns 0 on success), or is interrupted, or raises some other
exception. -/
inductive RunOutcome where
  | finished (code : Nat)
  | keyboardInterrupt
  | failure (msg : String)

/-- Outcome of argument parsing: argparse aborts with a usage error for a
missing or invalid command (exit 2); a parse result without a handler
hits the `print_help` fallback; otherwise a handler runs under the
`--debug` flag. -/
inductive ParseOutcome where
  | usageError
  | noHandler
  | parsed (debug : Bool) (run : RunOutcome)

/-- Embedding of `main`'s exit-code logic: usage errors and the missing
handler fallback exit 2; `KeyboardInterrupt` maps to 130; any other
exception maps to 1 unless `--debug` is set, in which case it is
re-raised (modelled as a propagated error). -/
def mainExit : ParseOutcome → Except String Nat
  | .usageError => .ok 2
  | .noHandler => .ok 2
  | .parsed _ (.finished code) => .ok code
  | .parsed _ .keyboardInterrupt => .ok 130
  | .parsed debug (.failure msg) => if debug then .error msg else .ok 1

/-! ### The tree differ and sync reconciler (spec §4.3, §4.4) -/

/-- One entry of a tree, keyed by relative path, with the attributes the
differ compares (coarse timestamp and optional content fingerprint). -/
structure FsEntry where
  path : String
  mtime : Nat
  fingerprint : String
deriving Repr, DecidableEq

/-- Modelled from the spec: the sync directionality flag of
`Aligo.sync_folder` (`--mode both|local|remote`), whose implementation is
not part of the provided sources. -/
inductive SyncMode where
  | both
  | localWins
  | remoteWins
deriving Repr, DecidableEq

/-- Modelled from the spec: the per-relative-path actions of a SyncPlan. -/
inductive SyncAction where
  | createLocal
  | createRemote
  | updateLocal
  | updateRemote
  | deleteLocal
  | deleteRemote
  | skip
deriving Repr, DecidableEq

def lookupEntry (l : List FsEntry) (p : String) : Option FsEntry :=
  l.find? (fun e => e.path = p)

/-- §4.3: two co-present entries are unchanged when their timestamps
agree and, unless `--ignore-content` is set, their fingerprints agree. -/
def entriesEqual (ignoreContent : Bool) (l r : FsEntry) : Bool :=
  l.mtime = r.mtime && (ignoreContent || l.fingerprint = r.fingerprint)

/-- §4.3: classification of a path present on both sides; ties under
`both` directionality default to newer-wins by timestamp. -/
def classifyBoth (mode : SyncMode) (ignoreContent : Bool) (l r : FsEntry) : SyncAction :=
  if entriesEqual ignoreContent l r then .skip
  else match mode with
    | .localWins => .updateRemote
    | .remoteWins => .updateLocal
    | .both => if r.mtime ≤ l.mtime then .updateRemote else .updateLocal

/-- §4.3: a path present only locally. -/
def classifyLocalOnly (mode : SyncMode) (followDelete : Bool) : SyncAction :=
  match mode with
  | .both => .createRemote
  | .localWins => .createRemote
  | .remoteWins => if followDelete then .deleteLocal else .skip

/-- §4.3: a path present only remotely; `delete-remote` only when
`--follow-delete` is set and local-wins directionality marks the local
absence as an intentional deletion. -/
def classifyRemoteOnly (mode : SyncMode) (followDelete : Bool) : SyncAction :=
  match mode with
  | .both => .createLocal
  | .remoteWins => .createLocal
  | .localWins => if followDelete then .deleteRemote else .skip

/-- Modelled from the spec: the Tree Differ (§4.3) inside
`Aligo.sync_folder`, which is not part of the provided sources: a merged
traversal by relative path producing a SyncPlan. -/
def buildPlan (mode : SyncMode) (ignoreContent followDelete : Bool)
    (localL remoteL : List FsEntry) : List (String × SyncAction) :=
  localL.map (fun le =>
    (le.path, match lookupEntry remoteL le.path with
      | some re => classifyBoth mode ignoreContent le re
      | none => classifyLocalOnly mode followDelete)) ++
  (remoteL.filter (fun re => (lookupEntry localL re.path).isNone)).map
    (fun re => (re.path, classifyRemoteOnly mode followDelete))

/-- Modelled from the spec: the remote-side effect of one plan action
(§4.4): `delete-remote` removes the path, `create-remote` and
`update-remote` copy the local entry over it, and every other action
leaves the remote tree alone. -/
def applyActionRemote (localL : List FsEntry) (remote : List FsEntry)
    (pa : String × SyncAction) : List FsEntry :=
  match pa.2 with
  | .deleteRemote => remote.filter (fun e => e.path ≠ pa.1)
  | .createRemote =>
    match lookupEntry localL pa.1 with
    | some le => remote.filter (fun e => e.path ≠ pa.1) ++ [le]
    | none => remote
  | .updateRemote =>
    match lookupEntry localL pa.1 with
    | some le => remote.filter (fun e => e.path ≠ pa.1) ++ [le]
    | none => remote
  | _ => remote

/-- Modelled from the spec: the remote tree after one whole sync run. -/
def syncRemoteResult (mode : SyncMode) (ignoreContent followDelete : Bool)
    (localL remoteL : List FsEntry) : List FsEntry :=
  (buildPlan mode ignoreContent followDelete localL remoteL).foldl
    (applyActionRemote localL) remoteL

/-! ### Supporting lemmas about character lists -/

theorem prefixOf_iff {n l : List Char} : n.isPrefixOf l = true ↔ n <+: l :=
  List.isPrefixOf_iff_prefix

theorem substr_cons_iff {n : List Char} {c : Char} {t : List Char} :
    n <:+: c :: t ↔ n <+: c :: t ∨ n <:+: t :=
  List.infix_cons_iff

theorem substr_reverse {n l : List Char} (h : n <:+: l) : n.reverse <:+: l.reverse := by
  obtain ⟨a, b, rfl⟩ := h
  exact ⟨b.reverse, a.reverse, by simp⟩

theorem hasInfix_iff {n : List Char} : ∀ {h : List Char}, hasInfix n h = true ↔ n <:+: h := by
  intro h
  induction h with
  | nil =>
    simp only [hasInfix, List.isEmpty_iff]
    constructor
    · rintro rfl; exact ⟨[], [], rfl⟩
    · rintro ⟨a, b, hab⟩
      have h1 := List.append_eq_nil.mp hab
      have h2 := List.append_eq_nil.mp h1.1
      exact h2.2
  | cons c t ih =>
    simp only [hasInfix, Bool.or_eq_true, prefixOf_iff, ih]
    exact substr_cons_iff.symm

theorem substr_dropWhile {p : Char → Bool} {n : List Char}
    (hn : n ≠ []) (hc : ∀ c ∈ n, p c = false) :
    ∀ {l : List Char}, n <:+: l → n <:+: l.dropWhile p := by
  intro l
  induction l with
  | nil => intro h; simpa using h
  | cons c t ih =>
    intro h
    rcases substr_cons_iff.mp h with hpre | hsub
    · by_cases hpc : p c = true
      · obtain ⟨b, hb⟩ := hpre
        cases n with
        | nil => exact absurd rfl hn
        | cons n0 nt =>
          have hn0 : n0 = c := by
            have := congrArg List.head? hb
            simpa using this
          have := hc n0 (by simp)
          rw [hn0, hpc] at this
          cases this
      · rw [List.dropWhile_cons_of_neg hpc]
        exact h
    · by_cases hpc : p c = true
      · rw [List.dropWhile_cons_of_pos hpc]
        exact ih hsub
      · rw [List.dropWhile_cons_of_neg hpc]
        exact h

theorem substr_pyStrip {n l : List Char} (hn : n ≠ [])
    (hc : ∀ c ∈ n, c.isWhitespace = false) (h : n <:+: l) : n <:+: pyStrip l := by
  have h1 := substr_dropWhile hn hc h
  have h2 := substr_reverse h1
  have h3 := substr_dropWhile (by simpa using hn)
    (by intro c hcm; exact hc c (List.mem_reverse.mp hcm)) h2
  have h4 := substr_reverse h3
  simpa [pyStrip] using h4

theorem mem_dropWhile_of_mem {p : Char → Bool} {c : Char} (hc : p c = false) :
    ∀ {l : List Char}, c ∈ l → c ∈ l.dropWhile p := by
  intro l
  induction l with
  | nil => simp
  | cons a t ih =>
    intro h
    by_cases hpa : p a = true
    · rw [List.dropWhile_cons_of_pos hpa]
      rcases List.mem_cons.mp h with rfl | h2
      · rw [hpa] at hc; cases hc
      · exact ih h2
    · rw [List.dropWhile_cons_of_neg hpa]
      exact h

theorem mem_pyStrip {c : Char} {l : List Char} (hc : c.isWhitespace = false)
    (h : c ∈ l) : c ∈ pyStrip l := by
  unfold pyStrip
  rw [List.mem_reverse]
  exact mem_dropWhile_of_mem hc (List.mem_reverse.mpr (mem_dropWhile_of_mem hc h))

theorem dropWhile_head_false {p : Char → Bool} :
    ∀ {l : List Char} {c : Char} {t : List Char}, l.dropWhile p = c :: t → p c = false := by
  intro l
  induction l with
  | nil => intro c t h; simp [List.dropWhile] at h
  | cons a l ih =>
    intro c t h
    by_cases hpa : p a = true
    · rw [List.dropWhile_cons_of_pos hpa] at h
      exact ih h
    · rw [List.dropWhile_cons_of_neg hpa] at h
      cases h
      simpa using hpa

theorem dropWhile_self {p : Char → Bool} (l : List Char) :
    (l.dropWhile p).dropWhile p = l.dropWhile p := by
  cases hd : l.dropWhile p with
  | nil => rfl
  | cons c t =>
    have hf := dropWhile_head_false hd
    rw [List.dropWhile_cons_of_neg (by simp [hf])]

theorem pyStrip_split (l : List Char) :
    l.dropWhile Char.isWhitespace =
      pyStrip l ++ ((l.dropWhile Char.isWhitespace).reverse.takeWhile Char.isWhitespace).reverse := by
  conv_lhs => rw [← List.reverse_reverse (l.dropWhile Char.isWhitespace),
    ← List.takeWhile_append_dropWhile Char.isWhitespace (l.dropWhile Char.isWhitespace).reverse]
  rw [List.reverse_append]
  rfl

theorem pyStrip_no_leading (l : List Char) :
    (pyStrip l).dropWhile Char.isWhitespace = pyStrip l := by
  cases hd : pyStrip l with
  | nil => rfl
  | cons c t =>
    have hsplit := pyStrip_split l
    rw [hd] at hsplit
    have hsplit' : l.dropWhile Char.isWhitespace =
        c :: (t ++ ((l.dropWhile Char.isWhitespace).reverse.takeWhile
          Char.isWhitespace).reverse) := by
      simpa using hsplit
    have hf : c.isWhitespace = false := dropWhile_head_false hsplit'
    rw [List.dropWhile_cons_of_neg (by simp [hf])]

theorem pyStrip_no_trailing (l : List Char) :
    (pyStrip l).reverse.dropWhile Char.isWhitespace = (pyStrip l).reverse := by
  unfold pyStrip
  rw [List.reverse_reverse]
  exact dropWhile_self _

theorem pyStrip_eq_self_of {l : List Char}
    (h1 : l.dropWhile Char.isWhitespace = l)
    (h2 : l.reverse.dropWhile Char.isWhitespace = l.reverse) :
    pyStrip l = l := by
  unfold pyStrip
  rw [h1, h2, List.reverse_reverse]

/-! ### Behaviour of `_normalize_remote_path` -/

theorem normalize_ok_shape {path y : String} (h : normalizeRemotePath path = .ok y) :
    hasInfix "://".data (strippedValue path) = false ∧
    ((['/'].isPrefixOf (strippedValue path) = true ∧ y.data = strippedValue path) ∨
     (['/'].isPrefixOf (strippedValue path) = false ∧ y.data = '/' :: strippedValue path)) := by
  unfold normalizeRemotePath at h
  cases h1 : hasInfix "://".data (strippedValue path) with
  | true => rw [h1] at h; simp at h
  | false =>
    rw [h1] at h
    simp only [Bool.false_eq_true, if_false] at h
    cases h2 : ['/'].isPrefixOf (strippedValue path) with
    | true =>
      rw [h2] at h
      simp only [Bool.not_true, Bool.and_false, Bool.false_eq_true, if_false, if_true,
        Except.ok.injEq] at h
      exact ⟨rfl, .inl ⟨rfl, by rw [← h]⟩⟩
    | false =>
      rw [h2] at h
      cases h3 : (strippedValue path).contains ':' with
      | true => rw [h3] at h; simp at h
      | false =>
        rw [h3] at h
        simp only [Bool.not_false, Bool.false_and, Bool.false_eq_true, if_false,
          Except.ok.injEq] at h
        exact ⟨rfl, .inr ⟨rfl, by rw [← h]⟩⟩

theorem normalize_ok_starts {path y : String} (h : normalizeRemotePath path = .ok y) :
    y.data.head? = some '/' := by
  rcases (normalize_ok_shape h).2 with ⟨hp, hy⟩ | ⟨_, hy⟩
  · obtain ⟨t, ht⟩ := prefixOf_iff.mp hp
    rw [hy, ← ht]
    rfl
  · rw [hy]
    rfl

theorem normalize_ok_data {path y : String} (h : normalizeRemotePath path = .ok y) :
    y.data = strippedValue path ∨ y.data = '/' :: strippedValue path := by
  rcases (normalize_ok_shape h).2 with ⟨_, hy⟩ | ⟨_, hy⟩
  · exact .inl hy
  · exact .inr hy

theorem normalize_ok_stripped {path y : String} (h : normalizeRemotePath path = .ok y) :
    strippedValue y = y.data := by
  have hne : y.data ≠ [] := by
    have := normalize_ok_starts h
    intro hnil
    rw [hnil] at this
    cases this
  have hlead : y.data.dropWhile Char.isWhitespace = y.data := by
    have hh := normalize_ok_starts h
    cases hy : y.data with
    | nil => exact absurd hy hne
    | cons c t =>
      rw [hy] at hh
      have hc : c = '/' := by
        simpa using hh
      rw [hc]
      exact List.dropWhile_cons_of_neg (by decide)
  have htrail : y.data.reverse.dropWhile Char.isWhitespace = y.data.reverse := by
    rcases normalize_ok_data h with hy | hy
    · rw [hy]
      exact pyStrip_no_trailing _
    · rw [hy]
      cases hv : strippedValue path with
      | nil => simp
      | cons c r =>
        have hvt : (c :: r).reverse.dropWhile Char.isWhitespace = (c :: r).reverse := by
          rw [← hv]
          exact pyStrip_no_trailing _
        cases hrev : (c :: r).reverse with
        | nil => simp [hrev] at hvt ⊢
        | cons d s =>
          rw [hrev] at hvt
          have hd : d.isWhitespace = false := dropWhile_head_false hvt
          have : ('/' :: c :: r).reverse = d :: (s ++ ['/']) := by
            rw [List.reverse_cons, hrev]
            rfl
          rw [this]
          exact List.dropWhile_cons_of_neg (by simp [hd])
  unfold strippedValue
  rw [if_neg (by simpa using hne)]
  exact pyStrip_eq_self_of hlead htrail

theorem normalize_ok_noScheme {path y : String} (h : normalizeRemotePath path = .ok y) :
    hasInfix "://".data y.data = false := by
  have h1 := (normalize_ok_shape h).1
  rcases normalize_ok_data h with hy | hy
  · rw [hy]; exact h1
  · rw [hy]
    rw [show ("://".data) = [':', '/', '/'] from rfl] at h1 ⊢
    have hpre : List.isPrefixOf [':', '/', '/'] ('/' :: strippedValue path) = false := by
      simp only [List.isPrefixOf]
      rw [show ((':' == '/') : Bool) = false from rfl]
      simp
    simp only [hasInfix, hpre, h1, Bool.or_self]

theorem normalize_ok_prefixed {path y : String} (h : normalizeRemotePath path = .ok y) :
    ['/'].isPrefixOf y.data = true := by
  have hh := normalize_ok_starts h
  cases hy : y.data with
  | nil => rw [hy] at hh; cases hh
  | cons c t =>
    rw [hy] at hh
    have hc : c = '/' := by simpa using hh
    rw [hc]
    simp [List.isPrefixOf]

/-- **C10** (amended): every string `_normalize_remote_path` returns starts
with the separator `'/'`, and applying the function to its own output
returns that output unchanged; an input containing `"://"` anywhere
always raises `ValueError`; an input containing `':'` whose
whitespace-stripped value does not start with `'/'` always raises
`ValueError`. -/
theorem c10_normalizeRemotePath_amended :
    (∀ path y, normalizeRemotePath path = .ok y → y.data.head? = some '/') ∧
    (∀ path y, normalizeRemotePath path = .ok y → normalizeRemotePath y = .ok y) ∧
    (∀ path, hasInfix "://".data path.data = true →
      ∃ m, normalizeRemotePath path = .error (.valueError m)) ∧
    (∀ path, path.data.contains ':' = true →
      ['/'].isPrefixOf (strippedValue path) = false →
      ∃ m, normalizeRemotePath path = .error (.valueError m)) := by
  refine ⟨fun path y h => normalize_ok_starts h, fun path y h => ?_,
    fun path h => ?_, fun path hc hp => ?_⟩
  · have hs := normalize_ok_stripped h
    have hni := normalize_ok_noScheme h
    have hpr := normalize_ok_prefixed h
    unfold normalizeRemotePath
    rw [hs, hni, hpr]
    simp
  · have hne : path.data ≠ [] := by
      intro hnil
      rw [hnil] at h
      cases h
    have hsub := hasInfix_iff.mp h
    have h2 : ("://".data) <:+: strippedValue path := by
      unfold strippedValue
      rw [if_neg (by simpa using hne)]
      exact substr_pyStrip (by decide) (by decide) hsub
    have h3 := hasInfix_iff.mpr h2
    refine ⟨"unsupported remote path format: " ++ String.mk (strippedValue path), ?_⟩
    unfold normalizeRemotePath
    rw [h3]
    rfl
  · have hne : path.data ≠ [] := by
      intro hnil
      rw [hnil] at hc
      cases hc
    have hmem : ':' ∈ path.data := by simpa using hc
    have hmem2 : ':' ∈ strippedValue path := by
      unfold strippedValue
      rw [if_neg (by simpa using hne)]
      exact mem_pyStrip (by decide) hmem
    have hc2 : (strippedValue path).contains ':' = true := by simpa using hmem2
    cases h1 : hasInfix "://".data (strippedValue path) with
    | true =>
      refine ⟨"unsupported remote path format: " ++ String.mk (strippedValue path), ?_⟩
      unfold normalizeRemotePath
      rw [h1]
      rfl
    | false =>
      refine ⟨"unsupported remote path format: " ++ String.mk (strippedValue path), ?_⟩
      unfold normalizeRemotePath
      rw [h1, hc2, hp]
      rfl

/-- Witness for the amended C10, instantiated at concrete inputs. -/
theorem c10_normalizeRemotePath_amended_witness :
    ("/abc" : String).data.head? = some '/' ∧
    normalizeRemotePath "/abc" = .ok "/abc" ∧
    (∃ m, normalizeRemotePath "a://b" = .error (.valueError m)) ∧
    (∃ m, normalizeRemotePath "a:b" = .error (.valueError m)) :=
  ⟨c10_normalizeRemotePath_amended.1 "abc" "/abc" (by rfl),
   c10_normalizeRemotePath_amended.2.1 "abc" "/abc" (by rfl),
   c10_normalizeRemotePath_amended.2.2.1 "a://b" (by rfl),
   c10_normalizeRemotePath_amended.2.2.2 "a:b" (by rfl) (by rfl)⟩

/-- Counterexample to C10 as stated: the input `" /a:b"` contains `':'`
and does not start with `'/'` (it starts with a space), yet
`_normalize_remote_path` returns successfully instead of raising
`ValueError`, because the leading whitespace is stripped first. -/
theorem c10_counterexample :
    (" /a:b" : String).data.contains ':' = true ∧
    (" /a:b" : String).data.head? = some ' ' ∧
    normalizeRemotePath " /a:b" = .ok "/a:b" ∧
    ∀ m, normalizeRemotePath " /a:b" ≠ .error (.valueError m) := by
  refine ⟨by rfl, by rfl, by rfl, ?_⟩
  intro m h
  exact Except.noConfusion ((rfl : normalizeRemotePath " /a:b" = Except.ok "/a:b").symm.trans h)

/-! ### The children table under creation -/

theorem lookupChildren_setChildren (m : List (String × List Node)) (k : String)
    (v : List Node) (p : String) :
    lookupChildren (setChildren m k v) p = if p = k then v else lookupChildren m p := by
  induction m with
  | nil =>
    simp only [setChildren, lookupChildren]
    by_cases h : p = k
    · rw [if_pos h.symm, if_pos h]
    · rw [if_neg (fun hh => h hh.symm), if_neg h]
  | cons e t ih =>
    show lookupChildren (if e.1 = k then (k, v) :: t else e :: setChildren t k v) p = _
    by_cases h1 : e.1 = k
    · rw [if_pos h1]
      show (if k = p then v else lookupChildren t p) = _
      by_cases h : p = k
      · rw [if_pos h.symm, if_pos h]
      · rw [if_neg (fun hh => h hh.symm), if_neg h]
        show _ = if e.1 = p then e.2 else lookupChildren t p
        rw [if_neg (fun hh => h (h1.symm.trans hh).symm)]
    · rw [if_neg h1]
      show (if e.1 = p then e.2 else lookupChildren (setChildren t k v) p) = _
      by_cases h2 : e.1 = p
      · rw [if_pos h2]
        have hpk : ¬ p = k := fun hh => h1 (h2.trans hh)
        rw [if_neg hpk]
        show _ = if e.1 = p then e.2 else lookupChildren t p
        rw [if_pos h2]
      · rw [if_neg h2, ih]
        by_cases h3 : p = k
        · rw [if_pos h3, if_pos h3]
        · rw [if_neg h3, if_neg h3]
          show _ = if e.1 = p then e.2 else lookupChildren t p
          rw [if_neg h2]

theorem lookupChildren_append_nil (k p : String) :
    ∀ (m : List (String × List Node)),
      lookupChildren (m ++ [(k, [])]) p = lookupChildren m p := by
  intro m
  induction m with
  | nil =>
    simp only [List.nil_append, lookupChildren]
    by_cases h : k = p
    · rw [if_pos h]
    · rw [if_neg h]
  | cons e t ih =>
    show (if e.1 = p then e.2 else lookupChildren (t ++ [(k, [])]) p) =
      if e.1 = p then e.2 else lookupChildren t p
    by_cases h : e.1 = p
    · rw [if_pos h, if_pos h]
    · rw [if_neg h, if_neg h, ih]

theorem lookupChildren_childrenAfterCreate (m : List (String × List Node))
    (parentId fid : String) (node : Node) (p : String) :
    lookupChildren (childrenAfterCreate m parentId fid node) p =
      if p = parentId then lookupChildren m p ++ [node] else lookupChildren m p := by
  unfold childrenAfterCreate
  by_cases hk : hasKey (setChildren m parentId (lookupChildren m parentId ++ [node]))
      fid = true
  · rw [if_pos hk, lookupChildren_setChildren]
    by_cases hp : p = parentId
    · rw [if_pos hp, if_pos hp, hp]
    · rw [if_neg hp, if_neg hp]
  · rw [if_neg hk, lookupChildren_append_nil, lookupChildren_setChildren]
    by_cases hp : p = parentId
    · rw [if_pos hp, if_pos hp, hp]
    · rw [if_neg hp, if_neg hp]

theorem createFolder_ok {s : RemoteState} {parentId name mode : String}
    {node : Node} {s' : RemoteState}
    (h : createFolder s parentId name mode = .ok (node, s')) :
    node.name = name ∧ node.type = "folder" ∧
    s'.created = s.created ++ [(parentId, name, mode)] ∧
    ∀ p, lookupChildren s'.children p =
      if p = parentId then lookupChildren s.children p ++ [node]
      else lookupChildren s.children p := by
  unfold createFolder at h
  by_cases hc : (mode = "refuse" &&
      (lookupChildren s.children parentId).any (fun n => n.name = name)) = true
  · rw [if_pos hc] at h
    cases h
  · rw [if_neg hc] at h
    simp only [Except.ok.injEq, Prod.mk.injEq] at h
    obtain ⟨hnode, hstate⟩ := h
    subst hnode
    subst hstate
    exact ⟨rfl, rfl, rfl, fun p =>
      lookupChildren_childrenAfterCreate s.children parentId _ _ p⟩

/-- A walk only ever creates a folder at a level whose exact-name filter
was empty, so any non-empty exact-name filter is left exactly as it was. -/
theorem resolveSegments_filter_stable : ∀ {segs : List String} {s : RemoteState}
    {cur n : Node} {s' : RemoteState},
    resolveSegments s cur segs = .ok (n, s') →
    ∀ p nm, (folderChildren s p).filter (fun x => x.name = nm) ≠ [] →
      (folderChildren s' p).filter (fun x => x.name = nm) =
        (folderChildren s p).filter (fun x => x.name = nm) := by
  intro segs
  induction segs with
  | nil =>
    intro s cur n s' h p nm hne
    simp only [resolveSegments, Except.ok.injEq, Prod.mk.injEq] at h
    rw [← h.2]
  | cons seg rest ih =>
    intro s cur n s' h p nm hne
    simp only [resolveSegments] at h
    split at h
    · exact ih h p nm hne
    · rename_i heq
      split at h
      · rename_i hsibE
        split at h
        · rename_i node s₁ hcf
          obtain ⟨hname, htype, hcreated, hlook⟩ := createFolder_ok hcf
          have hstep : ∀ q mm,
              (folderChildren s q).filter (fun x => x.name = mm) ≠ [] →
              (folderChildren s₁ q).filter (fun x => x.name = mm) =
                (folderChildren s q).filter (fun x => x.name = mm) := by
            intro q mm hq
            unfold folderChildren
            rw [hlook q]
            by_cases hqp : q = cur.file_id
            · rw [if_pos hqp]
              rw [List.filter_append, List.filter_append]
              have htypeF : List.filter (fun x => x.type = "folder") [node] = [node] := by
                simp [htype]
              rw [htypeF]
              by_cases hmm : mm = seg
              · exfalso
                apply hq
                rw [hqp, hmm]
                exact heq
              · have hsm : ¬ node.name = mm := by
                  rw [hname]
                  exact fun hh => hmm hh.symm
                have hnodeF : List.filter (fun x => x.name = mm) [node] = [] := by
                  simp [hsm]
                rw [hnodeF, List.append_nil]
            · rw [if_neg hqp]
          have hq1 : (folderChildren s₁ p).filter (fun x => x.name = nm) ≠ [] := by
            rw [hstep p nm hne]
            exact hne
          rw [ih h p nm hq1, hstep p nm hne]
        · exact Except.noConfusion h
      · exact Except.noConfusion h
    · exact Except.noConfusion h

/-- Re-running a successful walk from the state it produced succeeds with
the same node and leaves the state untouched. -/
theorem resolveSegments_idempotent : ∀ {segs : List String} {s : RemoteState}
    {cur n : Node} {s' : RemoteState},
    resolveSegments s cur segs = .ok (n, s') →
    resolveSegments s' cur segs = .ok (n, s') := by
  intro segs
  induction segs with
  | nil =>
    intro s cur n s' h
    simp only [resolveSegments, Except.ok.injEq, Prod.mk.injEq] at h ⊢
    exact ⟨h.1, trivial⟩
  | cons seg rest ih =>
    intro s cur n s' h
    simp only [resolveSegments] at h
    split at h
    · rename_i e heq
      have hf := resolveSegments_filter_stable h cur.file_id seg (by rw [heq]; simp)
      rw [heq] at hf
      simp only [resolveSegments, hf]
      exact ih h
    · rename_i heq
      split at h
      · rename_i hsibE
        split at h
        · rename_i node s₁ hcf
          obtain ⟨hname, htype, hcreated, hlook⟩ := createFolder_ok hcf
          have h1 : (folderChildren s₁ cur.file_id).filter (fun x => x.name = seg) =
              [node] := by
            unfold folderChildren
            rw [hlook cur.file_id, if_pos rfl, List.filter_append, List.filter_append]
            have htypeF : List.filter (fun x => x.type = "folder") [node] = [node] := by
              simp [htype]
            rw [htypeF]
            have hnodeF : List.filter (fun x => x.name = seg) [node] = [node] := by
              simp [hname]
            rw [hnodeF]
            have hold : List.filter (fun x => x.name = seg)
                (List.filter (fun x => x.type = "folder")
                  (lookupChildren s.children cur.file_id)) = [] := heq
            rw [hold, List.nil_append]
          have h2 := resolveSegments_filter_stable h cur.file_id seg (by rw [h1]; simp)
          rw [h1] at h2
          simp only [resolveSegments, h2]
          exact ih h
        · exact Except.noConfusion h
      · exact Except.noConfusion h
    · exact Except.noConfusion h

/-! ### Path resolution: exact matches, siblings, materialization -/

theorem substr_renderNames {x : String} : ∀ {l : List String}, x ∈ l →
    x.data <:+: (renderNames l).data := by
  intro l
  induction l with
  | nil => intro h; cases h
  | cons n rest ih =>
    intro h
    cases rest with
    | nil =>
      rcases List.mem_singleton.mp h with rfl
      exact ⟨[], [], by simp [renderNames]⟩
    | cons m rest2 =>
      rcases List.mem_cons.mp h with rfl | h2
      · refine ⟨[], (", " ++ renderNames (m :: rest2)).data, ?_⟩
        show [] ++ x.data ++ (", " ++ renderNames (m :: rest2)).data =
          (x ++ ", " ++ renderNames (m :: rest2)).data
        simp [String.data_append, List.append_assoc]
      · obtain ⟨a, b, hab⟩ := ih h2
        refine ⟨(n ++ ", ").data ++ a, b, ?_⟩
        show (n ++ ", ").data ++ a ++ x.data ++ b =
          (n ++ ", " ++ renderNames (m :: rest2)).data
        simp only [String.data_append]
        rw [← hab]
        simp [List.append_assoc]

theorem substr_errorMessage {seg : String} {names : List String} {x : String}
    (h : x ∈ names) :
    x.data <:+: (errorMessage (.ambiguous seg names)).data := by
  obtain ⟨a, b, hab⟩ := substr_renderNames h
  refine ⟨("ambiguous remote folder name for " ++ seg ++ ": ").data ++ a, b, ?_⟩
  show ("ambiguous remote folder name for " ++ seg ++ ": ").data ++ a ++ x.data ++ b =
    (("ambiguous remote folder name for " ++ seg ++ ": ") ++ renderNames names).data
  simp only [String.data_append]
  rw [← hab]
  simp [List.append_assoc]

/-- **C1**: when the current parent holds exactly one child whose name
equals the requested segment verbatim (its auto-renamed siblings
`segment(N)` notwithstanding), resolving a path ending in that segment
descends into the exact match, never a sibling, and the store is left
unchanged: zero folder creations. -/
theorem c1_exact_match_wins (s : RemoteState) (parent e : Node) (seg : String)
    (hexact : (folderChildren s parent.file_id).filter (fun n => n.name = seg) = [e])
    (_hsib : ∃ n ∈ folderChildren s parent.file_id, isAutoRenamed seg n.name = true) :
    resolveSegments s parent [seg] = .ok (e, s) ∧ e.name = seg := by
  constructor
  · simp only [resolveSegments, hexact]
  · have hm : e ∈ (folderChildren s parent.file_id).filter (fun n => n.name = seg) := by
      rw [hexact]
      exact List.mem_singleton.mpr rfl
    have := (List.mem_filter.mp hm).2
    simpa using this

/-- Witness for C1: the `vocabulary` / `vocabulary(1)` store of the test
suite resolves `vocabulary` to the exact node and creates nothing. -/
theorem c1_exact_match_wins_witness :
    resolveSegments vocabTestState rootNode ["vocabulary"] =
      .ok (⟨"folder-vocabulary", "vocabulary", "folder"⟩, vocabTestState) ∧
    (⟨"folder-vocabulary", "vocabulary", "folder"⟩ : Node).name = "vocabulary" :=
  c1_exact_match_wins vocabTestState rootNode ⟨"folder-vocabulary", "vocabulary", "folder"⟩
    "vocabulary" (by rfl) (by decide)

/-- **C2**: when the current parent has zero exact-name matches for the
segment but at least one auto-renamed sibling `segment(N)`, resolution
fails with the ambiguous condition, whose candidate list is exactly the
names of every such sibling, and the rendered error message contains the
name of each of them. -/
theorem c2_only_siblings_ambiguous (s : RemoteState) (cur : Node) (seg : String)
    (rest : List String)
    (hexact : (folderChildren s cur.file_id).filter (fun n => n.name = seg) = [])
    (hsib : (folderChildren s cur.file_id).filter (fun n => isAutoRenamed seg n.name) ≠ []) :
    resolveSegments s cur (seg :: rest) =
      .error (.ambiguous seg
        (((folderChildren s cur.file_id).filter (fun n => isAutoRenamed seg n.name)).map
          Node.name)) ∧
    ∀ n ∈ (folderChildren s cur.file_id).filter (fun n => isAutoRenamed seg n.name),
      n.name.data <:+:
        (errorMessage (.ambiguous seg
          (((folderChildren s cur.file_id).filter (fun n => isAutoRenamed seg n.name)).map
            Node.name))).data := by
  constructor
  · have hne : ((folderChildren s cur.file_id).filter
        (fun n => isAutoRenamed seg n.name)).isEmpty = false := by
      simpa [List.isEmpty_iff] using hsib
    simp only [resolveSegments, hexact, hne]
    simp
  · intro n hn
    exact substr_errorMessage (List.mem_map_of_mem Node.name hn)

/-- Witness for C2: the `vocabulary(1)` / `vocabulary(2)`-only store of
the test suite fails ambiguously and the message lists both names. -/
theorem c2_only_siblings_ambiguous_witness :
    resolveSegments ambigTestState rootNode ["vocabulary"] =
      .error (.ambiguous "vocabulary" ["vocabulary(1)", "vocabulary(2)"]) ∧
    "vocabulary(1)".data <:+:
      (errorMessage (.ambiguous "vocabulary" ["vocabulary(1)", "vocabulary(2)"])).data ∧
    "vocabulary(2)".data <:+:
      (errorMessage (.ambiguous "vocabulary" ["vocabulary(1)", "vocabulary(2)"])).data := by
  have h := c2_only_siblings_ambiguous ambigTestState rootNode "vocabulary" []
    (by rfl) (by decide)
  exact ⟨h.1, h.2 ⟨"id-1", "vocabulary(1)", "folder"⟩ (by decide),
    h.2 ⟨"id-2", "vocabulary(2)", "folder"⟩ (by decide)⟩

/-- **C3**: materializing `/backup/vocabulary` against an empty root
creates exactly two folders — `backup` under root first, then
`vocabulary` under the just-created `backup` (id `id-1`) — both logged
with the `refuse` conflict policy, parent strictly before child, and
returns the terminal `vocabulary` folder. -/
theorem c3_materialize_two_folders :
    resolveSyncRemoteFolder emptyRootState "/backup/vocabulary" =
      .ok (⟨"id-2", "vocabulary", "folder"⟩,
        ⟨[("root", [⟨"id-1", "backup", "folder"⟩]),
          ("id-1", [⟨"id-2", "vocabulary", "folder"⟩]),
          ("id-2", [])],
         [("root", "backup", "refuse"), ("id-1", "vocabulary", "refuse")], 2⟩) := by
  rfl

/-- **C4**: a second materialization of the same path, run from the state
the first one produced, returns the same node and leaves the state —
including the creation log — exactly as it was: folders are only created
on the first run, and a path whose folders all exist is resolved with
zero creations. -/
theorem c4_materialize_idempotent (s : RemoteState) (path : String) (n : Node)
    (s' : RemoteState) (h : resolveSyncRemoteFolder s path = .ok (n, s')) :
    resolveSyncRemoteFolder s' path = .ok (n, s') := by
  unfold resolveSyncRemoteFolder at h ⊢
  cases hsegs : pathSegments path with
  | nil =>
    rw [hsegs] at h
    have h3 : (Except.ok (rootNode, s) : Except ResolveError (Node × RemoteState)) =
      .ok (n, s') := h
    simp only [Except.ok.injEq, Prod.mk.injEq] at h3
    show (Except.ok (rootNode, s') : Except ResolveError (Node × RemoteState)) = .ok (n, s')
    rw [h3.1]
  | cons a t =>
    rw [hsegs] at h
    exact resolveSegments_idempotent h

/-- Witness for C4: re-materializing `/backup/vocabulary` from the state
the first run produced returns the same folder and changes nothing. -/
theorem c4_materialize_idempotent_witness :
    resolveSyncRemoteFolder materializedState "/backup/vocabulary" =
      .ok (⟨"id-2", "vocabulary", "folder"⟩, materializedState) :=
  c4_materialize_idempotent emptyRootState "/backup/vocabulary"
    ⟨"id-2", "vocabulary", "folder"⟩ materializedState (by rfl)

/-! ### Exit codes of `main` -/

/-- **C8**: `main` exits 0 on success (every command handler returns 0,
covered by the general `finished code ↦ code` case), 2 on a missing or
invalid command (argparse usage error or the missing-handler fallback),
130 on `KeyboardInterrupt`, and 1 on any other exception when `--debug`
is not set. -/
theorem c8_main_exit_codes :
    mainExit .usageError = .ok 2 ∧
    mainExit .noHandler = .ok 2 ∧
    (∀ d code, mainExit (.parsed d (.finished code)) = .ok code) ∧
    (∀ d, mainExit (.parsed d .keyboardInterrupt) = .ok 130) ∧
    (∀ m, mainExit (.parsed false (.failure m)) = .ok 1) :=
  ⟨rfl, rfl, fun _ _ => rfl, fun _ => rfl, fun _ => rfl⟩

/-! ### Sync never deletes remote files unless `--follow-delete` is set -/

theorem classifyBoth_ne_deleteRemote (mode : SyncMode) (ic : Bool) (l r : FsEntry) :
    classifyBoth mode ic l r ≠ .deleteRemote := by
  unfold classifyBoth
  split
  · intro h
    exact SyncAction.noConfusion h
  · split
    · intro h
      exact SyncAction.noConfusion h
    · intro h
      exact SyncAction.noConfusion h
    · split
      · intro h
        exact SyncAction.noConfusion h
      · intro h
        exact SyncAction.noConfusion h

theorem classifyLocalOnly_ne_deleteRemote (mode : SyncMode) (fd : Bool) :
    classifyLocalOnly mode fd ≠ .deleteRemote := by
  cases mode <;> cases fd <;> decide

theorem classifyRemoteOnly_false_ne_deleteRemote (mode : SyncMode) :
    classifyRemoteOnly mode false ≠ .deleteRemote := by
  cases mode <;> decide

/-- With `--follow-delete` unset, the plan contains no `delete-remote`
action at all. -/
theorem buildPlan_no_deleteRemote (mode : SyncMode) (ic : Bool)
    (localL remoteL : List FsEntry) :
    ∀ pa ∈ buildPlan mode ic false localL remoteL, pa.2 ≠ SyncAction.deleteRemote := by
  intro pa hpa
  unfold buildPlan at hpa
  rcases List.mem_append.mp hpa with h | h
  · obtain ⟨le, hle, rfl⟩ := List.mem_map.mp h
    show (match lookupEntry remoteL le.path with
      | some re => classifyBoth mode ic le re
      | none => classifyLocalOnly mode false) ≠ SyncAction.deleteRemote
    cases lookupEntry remoteL le.path with
    | some re => exact classifyBoth_ne_deleteRemote mode ic le re
    | none => exact classifyLocalOnly_ne_deleteRemote mode false
  · obtain ⟨re, hre, rfl⟩ := List.mem_map.mp h
    exact classifyRemoteOnly_false_ne_deleteRemote mode

/-- Applying a plan free of `delete-remote` actions never removes a path
that is absent locally from the remote tree. -/
theorem applyPlan_preserves {localL : List FsEntry} {q : String}
    (hq : lookupEntry localL q = none) :
    ∀ {plan : List (String × SyncAction)} {remote : List FsEntry},
      (∀ pa ∈ plan, pa.2 ≠ SyncAction.deleteRemote) →
      (∃ e ∈ remote, e.path = q) →
      ∃ e ∈ plan.foldl (applyActionRemote localL) remote, e.path = q := by
  intro plan
  induction plan with
  | nil =>
    intro remote hnd hex
    simpa using hex
  | cons pa rest ih =>
    intro remote hnd hex
    apply ih (fun x hx => hnd x (List.mem_cons_of_mem pa hx))
    obtain ⟨pp, aa⟩ := pa
    obtain ⟨e, he, hep⟩ := hex
    cases aa with
    | deleteRemote => exact absurd rfl (hnd (pp, .deleteRemote) (List.mem_cons_self _ _))
    | createRemote =>
      cases hl : lookupEntry localL pp with
      | none =>
        simp only [applyActionRemote, hl]
        exact ⟨e, he, hep⟩
      | some le =>
        have hne : pp ≠ q := by
          intro hh
          rw [hh, hq] at hl
          cases hl
        simp only [applyActionRemote, hl]
        refine ⟨e, List.mem_append_left _ (List.mem_filter.mpr ⟨he, ?_⟩), hep⟩
        have hqe : e.path ≠ pp := by
          rw [hep]
          exact fun hh => hne hh.symm
        simpa using hqe
    | updateRemote =>
      cases hl : lookupEntry localL pp with
      | none =>
        simp only [applyActionRemote, hl]
        exact ⟨e, he, hep⟩
      | some le =>
        have hne : pp ≠ q := by
          intro hh
          rw [hh, hq] at hl
          cases hl
        simp only [applyActionRemote, hl]
        refine ⟨e, List.mem_append_left _ (List.mem_filter.mpr ⟨he, ?_⟩), hep⟩
        have hqe : e.path ≠ pp := by
          rw [hep]
          exact fun hh => hne hh.symm
        simpa using hqe
    | createLocal => exact ⟨e, he, hep⟩
    | updateLocal => exact ⟨e, he, hep⟩
    | deleteLocal => exact ⟨e, he, hep⟩
    | skip => exact ⟨e, he, hep⟩

/-- **C9**: with `--follow-delete` unset, a file that exists remotely but
has no local counterpart (it was deleted locally) is still present in
the remote tree after the sync run, under every directionality mode. -/
theorem c9_sync_never_deletes_remote (mode : SyncMode) (ic : Bool)
    (localL remoteL : List FsEntry) (re : FsEntry)
    (hre : re ∈ remoteL) (hloc : lookupEntry localL re.path = none) :
    ∃ e ∈ syncRemoteResult mode ic false localL remoteL, e.path = re.path := by
  unfold syncRemoteResult
  exact applyPlan_preserves hloc (buildPlan_no_deleteRemote mode ic localL remoteL)
    ⟨re, hre, rfl⟩

/-- Witness for C9: a remote-only file survives a local-wins sync run
without `--follow-delete`. -/
theorem c9_sync_never_deletes_remote_witness :
    ∃ e ∈ syncRemoteResult .localWins false false [] [⟨"a.txt", 5, "h"⟩],
      e.path = (⟨"a.txt", 5, "h"⟩ : FsEntry).path :=
  c9_sync_never_deletes_remote .localWins false [] [⟨"a.txt", 5, "h"⟩]
    ⟨"a.txt", 5, "h"⟩ (by decide) (by rfl)

/-! ### Type checking and not-found behaviour of the CLI resolvers -/

/-- `_normalize_remote_path` only ever raises `ValueError`. -/
theorem normalize_error_shape {path : String} {e : CliError}
    (h : normalizeRemotePath path = .error e) : ∃ m, e = .valueError m := by
  unfold normalizeRemotePath at h
  split at h
  · exact ⟨_, (Except.error.injEq _ _).mp h.symm⟩
  · split at h
    · exact ⟨_, (Except.error.injEq _ _).mp h.symm⟩
    · split at h
      · exact Except.noConfusion h
      · exact Except.noConfusion h

/-- **C6**: provided the root node is a folder, every node
`_resolve_remote_folder` returns has type `folder`; and whenever the
folder lookup yields a node whose type is not `folder`, resolution fails
with `NotADirectoryError` instead of returning it. -/
theorem c6_folder_type_checked (ali : CliClient) (create : Bool)
    (hroot : ali.rootNode.type = "folder") :
    (∀ p f, resolveRemoteFolder ali p create = .ok f → f.type = "folder") ∧
    (∀ p path f, normalizeRemotePath p = .ok path → path ≠ "/" →
      ali.folderByPath path create = some f → f.type ≠ "folder" →
      resolveRemoteFolder ali p create =
        .error (.notADirectory ("remote path is not folder: " ++ path))) := by
  constructor
  · intro p f h
    unfold resolveRemoteFolder at h
    split at h
    · exact Except.noConfusion h
    · split at h
      · have hf : ali.rootNode = f := (Except.ok.injEq _ _).mp h
        rw [← hf]
        exact hroot
      · split at h
        · exact Except.noConfusion h
        · split at h
          · exact Except.noConfusion h
          · rename_i folder hfb ht
            have hf : folder = f := (Except.ok.injEq _ _).mp h
            rw [← hf]
            exact of_not_not ht
  · intro p path f hn hp hfb ht
    unfold resolveRemoteFolder
    simp [hn, hp, hfb, ht]

/-- Witness for C6: a client whose `/file` node has type `file` makes
`_resolve_remote_folder` fail with `NotADirectoryError`, and resolving
the root returns a folder. -/
theorem c6_folder_type_checked_witness :
    resolveRemoteFolder fileOnlyClient "/file" false =
      .error (.notADirectory ("remote path is not folder: " ++ "/file")) ∧
    ((⟨"root", "/", "folder"⟩ : Node).type = "folder") :=
  ⟨(c6_folder_type_checked fileOnlyClient false (by rfl)).2 "/file" "/file"
      ⟨"f1", "file", "file"⟩ (by rfl) (by decide) (by rfl) (by decide),
   (c6_folder_type_checked fileOnlyClient false (by rfl)).1 "/"
      ⟨"root", "/", "folder"⟩ (by rfl) ▸ rfl⟩

/-- **C7**: `_resolve_remote_file` raises `FileNotFoundError` exactly when
the normalized path is not the root and both the file lookup and the
folder fallback miss; the error message names the full requested
(normalized) path; and when the file lookup hits, its node is returned
without consulting the folder fallback. -/
theorem c7_file_not_found (ali : CliClient) :
    (∀ p path, normalizeRemotePath p = .ok path → path ≠ "/" →
      ali.fileByPath path = none → ali.folderByPath path false = none →
      resolveRemoteFile ali p = .error (.fileNotFound ("remote path not found: " ++ path)) ∧
      path.data <:+: ("remote path not found: " ++ path).data) ∧
    (∀ p m, resolveRemoteFile ali p = .error (.fileNotFound m) →
      ∃ path, normalizeRemotePath p = .ok path ∧ path ≠ "/" ∧
        ali.fileByPath path = none ∧ ali.folderByPath path false = none ∧
        m = "remote path not found: " ++ path) ∧
    (∀ p path f, normalizeRemotePath p = .ok path → path ≠ "/" →
      ali.fileByPath path = some f → resolveRemoteFile ali p = .ok f) := by
  refine ⟨fun p path hn hp hfi hfo => ⟨?_, ?_⟩, fun p m h => ?_, fun p path f hn hp hfi => ?_⟩
  · unfold resolveRemoteFile
    simp [hn, hp, hfi, hfo]
  · exact ⟨("remote path not found: ").data, [], by simp [String.data_append]⟩
  · unfold resolveRemoteFile at h
    split at h
    · rename_i e hn
      have he : e = .fileNotFound m := (Except.error.injEq _ _).mp h
      obtain ⟨mm, hmm⟩ := normalize_error_shape hn
      rw [hmm] at he
      exact CliError.noConfusion he
    · rename_i path hn
      split at h
      · exact Except.noConfusion h
      · rename_i hp
        split at h
        · exact Except.noConfusion h
        · rename_i hfi
          split at h
          · exact Except.noConfusion h
          · rename_i hfo
            have hmsg := (Except.error.injEq _ _).mp h
            have hmsg2 : "remote path not found: " ++ path = m :=
              (CliError.fileNotFound.injEq _ _).mp hmsg
            exact ⟨path, hn, hp, hfi, hfo, hmsg2.symm⟩
  · unfold resolveRemoteFile
    simp [hn, hp, hfi]

/-- Witness for C7: against the empty client, `/missing` fails with the
not-found error naming `/missing`; against `fileOnlyClient` the folder
fallback path `/file` is returned by the file resolver. -/
theorem c7_file_not_found_witness :
    (resolveRemoteFile emptyClient "/missing" =
      .error (.fileNotFound ("remote path not found: " ++ "/missing")) ∧
     ("/missing" : String).data <:+: ("remote path not found: " ++ "/missing").data) :=
  (c7_file_not_found emptyClient).1 "/missing" "/missing" (by rfl) (by decide)
    (by rfl) (by rfl)

/-! ### Rich nodes and plain records resolve identically -/

theorem lookupChildrenRec_map (m : List (String × List Node)) (p : String) :
    lookupChildrenRec (m.map (fun e => (e.1, e.2.map toRecord))) p =
      (lookupChildren m p).map toRecord := by
  induction m with
  | nil => rfl
  | cons e t ih =>
    simp only [List.map_cons, lookupChildrenRec, lookupChildren]
    by_cases h : e.1 = p
    · rw [if_pos h, if_pos h]
    · rw [if_neg h, if_neg h, ih]

theorem setChildrenRec_map (m : List (String × List Node)) (k : String) (v : List Node) :
    setChildrenRec (m.map (fun e => (e.1, e.2.map toRecord))) k (v.map toRecord) =
      (setChildren m k v).map (fun e => (e.1, e.2.map toRecord)) := by
  induction m with
  | nil => rfl
  | cons e t ih =>
    simp only [List.map_cons, setChildrenRec, setChildren]
    by_cases h : e.1 = k
    · rw [if_pos h, if_pos h]
      simp
    · rw [if_neg h, if_neg h]
      simp only [List.map_cons]
      rw [ih]

theorem hasKeyRec_map (m : List (String × List Node)) (k : String) :
    hasKeyRec (m.map (fun e => (e.1, e.2.map toRecord))) k = hasKey m k := by
  induction m with
  | nil => rfl
  | cons e t ih =>
    simp only [List.map_cons, hasKeyRec, hasKey]
    rw [ih]

theorem isEmpty_map (l : List Node) : (l.map toRecord).isEmpty = l.isEmpty := by
  cases l <;> rfl

theorem any_name_map (l : List Node) (nm : String) :
    (l.map toRecord).any (fun n => recField n "name" = nm) =
      l.any (fun n => n.name = nm) := by
  induction l with
  | nil => rfl
  | cons e t ih =>
    simp only [List.map_cons, List.any_cons, ih]
    rfl

theorem childrenAfterCreateRec_map (m : List (String × List Node))
    (parentId fid : String) (node : Node) :
    childrenAfterCreateRec (m.map (fun e => (e.1, e.2.map toRecord))) parentId fid
      (toRecord node) =
      (childrenAfterCreate m parentId fid node).map (fun e => (e.1, e.2.map toRecord)) := by
  unfold childrenAfterCreateRec childrenAfterCreate
  have happ : lookupChildrenRec (m.map (fun e => (e.1, e.2.map toRecord))) parentId ++
      [toRecord node] = (lookupChildren m parentId ++ [node]).map toRecord := by
    rw [lookupChildrenRec_map]
    simp
  rw [happ, setChildrenRec_map, hasKeyRec_map]
  by_cases hk : hasKey (setChildren m parentId (lookupChildren m parentId ++ [node]))
      fid = true
  · rw [if_pos hk, if_pos hk]
  · rw [if_neg hk, if_neg hk]
    simp

theorem createFolderRec_map (s : RemoteState) (pid nm mode : String) :
    createFolderRec (mapState s) pid nm mode = mapResult (createFolder s pid nm mode) := by
  have hmap : (mapState s).children = s.children.map (fun e => (e.1, e.2.map toRecord)) := rfl
  have hany : ((lookupChildrenRec (mapState s).children pid).any
        (fun n => recField n "name" = nm)) =
      ((lookupChildren s.children pid).any (fun n => n.name = nm)) := by
    rw [hmap, lookupChildrenRec_map, any_name_map]
  unfold createFolderRec createFolder mapResult
  rw [hany]
  by_cases hc : (mode = "refuse" &&
      (lookupChildren s.children pid).any (fun n => n.name = nm)) = true
  · rw [if_pos hc, if_pos hc]
  · rw [if_neg hc, if_neg hc]
    have hseq : (mapState s).seq = s.seq := rfl
    have hcreated : (mapState s).created = s.created := rfl
    rw [hseq, hcreated, hmap, childrenAfterCreateRec_map]
    rfl

theorem resolveSegmentsRec_map : ∀ (segs : List String) (s : RemoteState) (cur : Node),
    resolveSegmentsRec (mapState s) (toRecord cur) segs =
      mapResult (resolveSegments s cur segs) := by
  intro segs
  induction segs with
  | nil =>
    intro s cur
    rfl
  | cons seg rest ih =>
    intro s cur
    have hmap : (mapState s).children = s.children.map (fun e => (e.1, e.2.map toRecord)) :=
      rfl
    have hkids : folderChildrenRec (mapState s) cur.file_id =
        (folderChildren s cur.file_id).map toRecord := by
      unfold folderChildrenRec folderChildren
      rw [hmap, lookupChildrenRec_map, List.filter_map]
      rfl
    have hexact : (folderChildrenRec (mapState s) cur.file_id).filter
        (fun n => recField n "name" = seg) =
        ((folderChildren s cur.file_id).filter (fun n => n.name = seg)).map toRecord := by
      rw [hkids, List.filter_map]
      rfl
    have hsibs : (folderChildrenRec (mapState s) cur.file_id).filter
        (fun n => isAutoRenamed seg (recField n "name")) =
        ((folderChildren s cur.file_id).filter
          (fun n => isAutoRenamed seg n.name)).map toRecord := by
      rw [hkids, List.filter_map]
      rfl
    have hrecid : recField (toRecord cur) "file_id" = cur.file_id := rfl
    simp only [resolveSegmentsRec, resolveSegments, hexact, hsibs, hrecid]
    cases hE : (folderChildren s cur.file_id).filter (fun n => n.name = seg) with
    | nil =>
      simp only [List.map_nil, isEmpty_map]
      by_cases hs : ((folderChildren s cur.file_id).filter
          (fun n => isAutoRenamed seg n.name)).isEmpty = true
      · rw [if_pos hs, if_pos hs, createFolderRec_map]
        cases hcf : createFolder s cur.file_id seg "refuse" with
        | error err => rfl
        | ok pair =>
          obtain ⟨node, s₁⟩ := pair
          show resolveSegmentsRec (mapState s₁) (toRecord node) rest = _
          exact ih s₁ node
      · rw [if_neg hs, if_neg hs]
        rw [List.map_map]
        rfl
    | cons e tail =>
      cases tail with
      | nil =>
        simp only [List.map_cons, List.map_nil]
        exact ih s e
      | cons e2 t2 =>
        simp only [List.map_cons, List.map_map]
        rfl

theorem resolveSyncRec_map (s : RemoteState) (path : String) :
    resolveSyncRemoteFolderRec (mapState s) path =
      mapResult (resolveSyncRemoteFolder s path) := by
  unfold resolveSyncRemoteFolderRec resolveSyncRemoteFolder
  cases pathSegments path with
  | nil => rfl
  | cons a t => exact resolveSegmentsRec_map (a :: t) s rootNode

/-- **C5**: resolution behaves identically whether the collaborator hands
back rich nodes or plain key/value records carrying `file_id`/`name`/
`type`: the record-mode run is the exact image of the rich-mode run, so
both resolve to the node with the same `file_id`, log the same
creations, and fail with the same errors. -/
theorem c5_record_equivalence :
    (∀ s path, resolveSyncRemoteFolderRec (mapState s) path =
      mapResult (resolveSyncRemoteFolder s path)) ∧
    (∀ s path n s', resolveSyncRemoteFolder s path = .ok (n, s') →
      resolveSyncRemoteFolderRec (mapState s) path = .ok (toRecord n, mapState s') ∧
      recField (toRecord n) "file_id" = n.file_id ∧
      (mapState s').created = s'.created) := by
  refine ⟨fun s path => resolveSyncRec_map s path, fun s path n s' h => ?_⟩
  rw [resolveSyncRec_map s path, h]
  exact ⟨rfl, rfl, rfl⟩

/-- Witness for C5: the dict-mode test store resolves `/vocabulary` to the
record with the `file_id` of the exact rich node, with no creations. -/
theorem c5_record_equivalence_witness :
    resolveSyncRemoteFolderRec (mapState vocabTestState) "/vocabulary" =
      .ok (toRecord ⟨"folder-vocabulary", "vocabulary", "folder"⟩,
        mapState vocabTestState) ∧
    recField (toRecord ⟨"folder-vocabulary", "vocabulary", "folder"⟩) "file_id" =
      "folder-vocabulary" ∧
    (mapState vocabTestState).created = ([] : List (String × String × String)) :=
  c5_record_equivalence.2 vocabTestState "/vocabulary"
    ⟨"folder-vocabulary", "vocabulary", "folder"⟩ vocabTestState (by rfl)

end Aligo
